import Mathlib

/-!
# Verification of the EasyPay MIFARE DESFire crypto core

A shallow embedding, over `Nat` byte lists, of the MIFARE DESFire
cryptographic protocol stack of the EasyPay firmware
(`src/mifare/mifare_crypto.c`, `src/mifare/mifare_key.c`,
`src/mifare/mifare.c`), together with proofs of the behavioural
properties stated in the specification.

Bytes are modelled as `Nat` values; every place where the C code's
fixed-width arithmetic can truncate carries an explicit mask
(`&&& 0xFF`, ...).  The single-block DES/AES primitives
(`src/mifare/des.c`, `src/mifare/aes.h`) are the external block-cipher
capability of the design; they are abstracted as a `BlockPrims`
parameter mapping raw key bytes and a block to a block, exactly the
shape of `DES_ecb_encrypt`/`AES_encrypt` as the core invokes them.
-/

/-! ## Byte-level helpers (mifare_crypto.c: Xor, Rol, Lsl) -/

/-- `Xor` (mifare_crypto.c lines 98-104): bytewise `data[i] ^= ivect[i]`.
Both buffers have the same length in every use. -/
def XorBytes (ivect data : List Nat) : List Nat :=
  List.zipWith (fun i d => d ^^^ i) ivect data

/-- `Rol` (mifare_crypto.c lines 126-134): rotate the byte array left by
one byte (`Rol {0,1,2,3,4} = {1,2,3,4,0}`). -/
def Rol (data : List Nat) : List Nat :=
  match data with
  | [] => []
  | x :: xs => xs ++ [x]

/-- `Lsl` (mifare_crypto.c lines 159-166): logical bit shift left of the
whole byte array: `data[n] = (data[n] << 1) | (data[n+1] >> 7)`, and the
last byte is just shifted (each byte is a uint8_t, hence the mask). -/
def Lsl (data : List Nat) : List Nat :=
  match data with
  | [] => []
  | [x] => [(x <<< 1) &&& 0xFF]
  | x :: y :: rest => (((x <<< 1) ||| (y >>> 7)) &&& 0xFF) :: Lsl (y :: rest)

/-! ## Checksum engine (mifare_crypto.c: MifareCrc16, MifareCrc32) -/

/-- One byte of the ISO14443-3 Type A CRC16 recurrence
(mifare_crypto.c lines 520-526).  `bt` is a `uint8_t` so its fetches and
updates are masked to 8 bits; the register is a `uint16_t` but every
term of its update already lies below `2^16`. -/
def MifareCrc16Update (reg byte : Nat) : Nat :=
  let bt0 := byte &&& 0xFF
  let bt1 := bt0 ^^^ (reg &&& 0xFF)
  let bt := (bt1 ^^^ (bt1 <<< 4)) &&& 0xFF
  (reg >>> 8) ^^^ (bt <<< 8) ^^^ (bt <<< 3) ^^^ (bt >>> 4)

/-- `MifareCrc16` (mifare_crypto.c lines 515-530), as the final value of
the 16-bit register seeded with 0x6363.  The C loop is a do-while, so it
agrees with the fold on every non-empty buffer (the only contractual
inputs). -/
def MifareCrc16 (data : List Nat) : Nat :=
  data.foldl MifareCrc16Update 0x6363

/-- The two CRC16 checksum bytes in transmission order (LSB first),
mifare_crypto.c lines 528-529. -/
def MifareCrc16Bytes (data : List Nat) : List Nat :=
  [MifareCrc16 data &&& 0xFF, (MifareCrc16 data >>> 8) &&& 0xFF]

/-- `MifareCrc16Append` (mifare_crypto.c lines 550-553). -/
def MifareCrc16Append (data : List Nat) : List Nat :=
  data ++ MifareCrc16Bytes data

/-- One bit of the reflected CRC32 recurrence (mifare_crypto.c lines
436-440): pop the LSB, shift right, and xor in the reversed Ethernet
polynomial if the popped bit was set. -/
def MifareCrc32Step (reg : Nat) : Nat :=
  if reg &&& 1 = 1 then (reg >>> 1) ^^^ 0xEDB88320 else reg >>> 1

/-- `n` iterations of `MifareCrc32Step` (the C inner `for` loop runs it
8 times per byte). -/
def MifareCrc32Steps : Nat → Nat → Nat
  | 0, reg => reg
  | n + 1, reg => MifareCrc32Steps n (MifareCrc32Step reg)

/-- One byte of the DESFire CRC32 (mifare_crypto.c lines 433-441):
`reg ^= current_byte` (a uint8_t, hence the mask) then 8 bit steps. -/
def MifareCrc32Update (reg byte : Nat) : Nat :=
  MifareCrc32Steps 8 (reg ^^^ (byte &&& 0xFF))

/-- `MifareCrc32` (mifare_crypto.c lines 425-446) as the final value of
the 32-bit register seeded with all ones. -/
def MifareCrc32 (data : List Nat) : Nat :=
  data.foldl MifareCrc32Update 0xFFFFFFFF

/-- The four CRC32 checksum bytes in little endian transmission order
(mifare_crypto.c lines 443-445). -/
def MifareCrc32Bytes (data : List Nat) : List Nat :=
  [MifareCrc32 data &&& 0xFF, (MifareCrc32 data >>> 8) &&& 0xFF,
   (MifareCrc32 data >>> 16) &&& 0xFF, (MifareCrc32 data >>> 24) &&& 0xFF]

/-- `MifareCrc32Append` (mifare_crypto.c lines 466-469). -/
def MifareCrc32Append (data : List Nat) : List Nat :=
  data ++ MifareCrc32Bytes data

/-! ## Buffer-length bookkeeping (mifare_crypto.c) -/

/-- The modulus of the target's `size_t`: every file header names the
HI-TECH C compiler for PIC18 MCUs, whose `size_t` is 16 bits wide, so
`size_t` arithmetic is carried out modulo `2 ^ 16`. -/
def SIZE_T_MOD : Nat := 2 ^ 16

/-- `PaddedDataLength` (mifare_crypto.c lines 637-643).  The C computes
`((nbytes / block_size) + 1) * block_size` entirely in `size_t`, so the
increment and the product are reduced modulo `SIZE_T_MOD`. -/
def PaddedDataLength (nbytes block_size : Nat) : Nat :=
  if nbytes = 0 ∨ nbytes % block_size ≠ 0 then
    ((nbytes / block_size + 1) % SIZE_T_MOD * block_size) % SIZE_T_MOD
  else
    nbytes

/-! ## Arithmetic helper lemmas -/

theorem shiftRight_le_self (x n : Nat) : x >>> n ≤ x := by
  rw [Nat.shiftRight_eq_div_pow]
  exact Nat.div_le_self x (2 ^ n)

theorem shiftRight_eq_zero_of_lt {reg n : Nat} (h : reg < 2 ^ n) :
    reg >>> n = 0 := by
  rw [Nat.shiftRight_eq_div_pow]
  exact Nat.div_eq_of_lt h

theorem shift8_lt {m : Nat} (n : Nat) (h : m < 2 ^ (8 + n)) :
    m >>> 8 < 2 ^ n := by
  rw [Nat.shiftRight_eq_div_pow]
  apply Nat.div_lt_of_lt_mul
  rwa [pow_add] at h

theorem and_255_eq_mod (x : Nat) : x &&& 0xFF = x % 256 := by
  have h := Nat.and_pow_two_sub_one_eq_mod x 8
  norm_num at h
  exact h

/-! ## CRC register bound lemmas -/

theorem crc16_combine_lt (reg bt : Nat) (h : reg < 2 ^ 16)
    (hbt : bt ≤ 0xFF) :
    (reg >>> 8) ^^^ (bt <<< 8) ^^^ (bt <<< 3) ^^^ (bt >>> 4) < 2 ^ 16 := by
  have h1 : reg >>> 8 < 2 ^ 16 := lt_of_le_of_lt (shiftRight_le_self reg 8) h
  have h2 : bt <<< 8 < 2 ^ 16 := by
    rw [Nat.shiftLeft_eq]
    norm_num
    omega
  have h3 : bt <<< 3 < 2 ^ 16 := by
    rw [Nat.shiftLeft_eq]
    norm_num
    omega
  have h4 : bt >>> 4 < 2 ^ 16 := by
    have := shiftRight_le_self bt 4
    norm_num
    omega
  exact Nat.xor_lt_two_pow (Nat.xor_lt_two_pow (Nat.xor_lt_two_pow h1 h2) h3) h4

theorem MifareCrc16Update_lt (reg byte : Nat) (h : reg < 2 ^ 16) :
    MifareCrc16Update reg byte < 2 ^ 16 := by
  simp only [MifareCrc16Update]
  exact crc16_combine_lt reg _ h Nat.and_le_right

theorem MifareCrc16_lt (data : List Nat) : MifareCrc16 data < 2 ^ 16 := by
  have key : ∀ (l : List Nat) (r : Nat), r < 2 ^ 16 →
      l.foldl MifareCrc16Update r < 2 ^ 16 := by
    intro l
    induction l with
    | nil => intro r h; simpa using h
    | cons b rest ih =>
        intro r h
        exact ih _ (MifareCrc16Update_lt r b h)
  exact key data 0x6363 (by norm_num)

theorem MifareCrc32Step_lt (reg : Nat) (h : reg < 2 ^ 32) :
    MifareCrc32Step reg < 2 ^ 32 := by
  unfold MifareCrc32Step
  have h1 : reg >>> 1 < 2 ^ 32 := lt_of_le_of_lt (shiftRight_le_self reg 1) h
  split
  · exact Nat.xor_lt_two_pow h1 (by norm_num)
  · exact h1

theorem MifareCrc32Steps_lt (n : Nat) :
    ∀ reg : Nat, reg < 2 ^ 32 → MifareCrc32Steps n reg < 2 ^ 32 := by
  induction n with
  | zero => intro reg h; simpa [MifareCrc32Steps] using h
  | succ n ih => intro reg h; exact ih _ (MifareCrc32Step_lt reg h)

theorem MifareCrc32_lt (data : List Nat) : MifareCrc32 data < 2 ^ 32 := by
  have key : ∀ (l : List Nat) (r : Nat), r < 2 ^ 32 →
      l.foldl MifareCrc32Update r < 2 ^ 32 := by
    intro l
    induction l with
    | nil => intro r h; simpa using h
    | cons b rest ih =>
        intro r h
        refine ih _ (MifareCrc32Steps_lt 8 _ ?_)
        exact Nat.xor_lt_two_pow h
          (lt_of_le_of_lt Nat.and_le_right (by norm_num))
  exact key data 0xFFFFFFFF (by norm_num)

/-! ## The append-then-recompute-to-zero property of both CRCs -/

theorem MifareCrc32Step_of_even (reg : Nat) (h : reg % 2 = 0) :
    MifareCrc32Step reg = reg >>> 1 := by
  unfold MifareCrc32Step
  rw [Nat.and_one_is_mod, h]
  simp

theorem MifareCrc32Steps_of_mod (k : Nat) :
    ∀ reg : Nat, reg % 2 ^ k = 0 → MifareCrc32Steps k reg = reg >>> k := by
  induction k with
  | zero => intro reg _; simp [MifareCrc32Steps]
  | succ k ih =>
      intro reg h
      obtain ⟨m, hm⟩ := Nat.dvd_of_mod_eq_zero h
      have h2 : reg % 2 = 0 := by
        subst hm
        rw [pow_succ, Nat.mul_comm (2 ^ k) 2, Nat.mul_assoc]
        exact Nat.mul_mod_right 2 _
      have hhalf : reg >>> 1 = 2 ^ k * m := by
        rw [Nat.shiftRight_eq_div_pow, pow_one, hm, pow_succ,
          Nat.mul_comm (2 ^ k) 2, Nat.mul_assoc]
        exact Nat.mul_div_cancel_left _ (by norm_num)
      have hstep : MifareCrc32Steps (k + 1) reg
          = MifareCrc32Steps k (reg >>> 1) := by
        rw [MifareCrc32Steps, MifareCrc32Step_of_even reg h2]
      rw [hstep, ih (reg >>> 1) (by rw [hhalf]; exact Nat.mul_mod_right _ m),
        ← Nat.shiftRight_add, Nat.add_comm 1 k]

theorem xor_low_byte_and (reg : Nat) :
    (reg ^^^ (reg &&& 0xFF)) &&& 0xFF = 0 := by
  rw [Nat.and_xor_distrib_right, Nat.and_assoc, Nat.and_self, Nat.xor_self]

theorem xor_low_byte_shift (reg : Nat) :
    (reg ^^^ (reg &&& 0xFF)) >>> 8 = reg >>> 8 := by
  apply Nat.eq_of_testBit_eq
  intro i
  have h255 : Nat.testBit (reg &&& 0xFF) (8 + i) = false := by
    apply Nat.testBit_lt_two_pow
    calc reg &&& 0xFF ≤ 0xFF := Nat.and_le_right
      _ < 2 ^ 8 := by norm_num
      _ ≤ 2 ^ (8 + i) := Nat.pow_le_pow_right (by norm_num) (by omega)
  simp [Nat.testBit_shiftRight, Nat.testBit_xor, h255]

/-- Feeding the register's own low byte back into the CRC32 shifts the
register right by 8 with no polynomial folds. -/
theorem MifareCrc32Update_self (reg : Nat) :
    MifareCrc32Update reg (reg &&& 0xFF) = reg >>> 8 := by
  simp only [MifareCrc32Update]
  rw [Nat.and_assoc, Nat.and_self]
  have hmod : (reg ^^^ (reg &&& 0xFF)) % 2 ^ 8 = 0 := by
    have h := xor_low_byte_and reg
    rw [and_255_eq_mod] at h
    norm_num
    exact h
  rw [MifareCrc32Steps_of_mod 8 _ hmod, xor_low_byte_shift]

/-- Feeding the register's own low byte back into the CRC16 shifts the
register right by 8 (the folded byte `bt` is zero). -/
theorem MifareCrc16Update_self (reg : Nat) :
    MifareCrc16Update reg (reg &&& 0xFF) = reg >>> 8 := by
  simp only [MifareCrc16Update]
  rw [Nat.and_assoc, Nat.and_self, Nat.xor_self]
  simp

/-- C5: appending the little-endian CRC to a buffer and recomputing the
same CRC over payload plus checksum yields the zero register, for both
`MifareCrc16` and `MifareCrc32`. -/
theorem crc_append_recompute_zero (data : List Nat) (hne : data ≠ []) :
    MifareCrc16 (MifareCrc16Append data) = 0 ∧
    MifareCrc32 (MifareCrc32Append data) = 0 := by
  constructor
  · show (data ++ MifareCrc16Bytes data).foldl MifareCrc16Update 0x6363 = 0
    rw [List.foldl_append]
    show MifareCrc16Update (MifareCrc16Update (MifareCrc16 data)
      (MifareCrc16 data &&& 0xFF)) ((MifareCrc16 data >>> 8) &&& 0xFF) = 0
    rw [MifareCrc16Update_self, MifareCrc16Update_self]
    have h1 : MifareCrc16 data >>> 8 < 2 ^ 8 :=
      shift8_lt 8 (by have := MifareCrc16_lt data; norm_num at this ⊢; omega)
    exact shiftRight_eq_zero_of_lt h1
  · show (data ++ MifareCrc32Bytes data).foldl MifareCrc32Update 0xFFFFFFFF = 0
    rw [List.foldl_append]
    show MifareCrc32Update (MifareCrc32Update (MifareCrc32Update
      (MifareCrc32Update (MifareCrc32 data) (MifareCrc32 data &&& 0xFF))
      ((MifareCrc32 data >>> 8) &&& 0xFF))
      ((MifareCrc32 data >>> 16) &&& 0xFF))
      ((MifareCrc32 data >>> 24) &&& 0xFF) = 0
    rw [MifareCrc32Update_self]
    rw [show MifareCrc32 data >>> 16 = (MifareCrc32 data >>> 8) >>> 8 from by
      rw [← Nat.shiftRight_add]]
    rw [MifareCrc32Update_self]
    rw [show MifareCrc32 data >>> 24 = ((MifareCrc32 data >>> 8) >>> 8) >>> 8
      from by rw [← Nat.shiftRight_add, ← Nat.shiftRight_add]]
    rw [MifareCrc32Update_self, MifareCrc32Update_self]
    have h0 := MifareCrc32_lt data
    have h1 : MifareCrc32 data >>> 8 < 2 ^ 24 :=
      shift8_lt 24 (by norm_num at h0 ⊢; omega)
    have h2 : (MifareCrc32 data >>> 8) >>> 8 < 2 ^ 16 :=
      shift8_lt 16 (by norm_num at h1 ⊢; omega)
    have h3 : ((MifareCrc32 data >>> 8) >>> 8) >>> 8 < 2 ^ 8 :=
      shift8_lt 8 (by norm_num at h2 ⊢; omega)
    exact shiftRight_eq_zero_of_lt h3

/-- C5 witness: concrete evaluation on the non-empty buffer
`{0x12, 0x34}` (the header's own CRC16 test vector). -/
theorem crc_append_recompute_zero_witness :
    MifareCrc16 (MifareCrc16Append [0x12, 0x34]) = 0 ∧
    MifareCrc32 (MifareCrc32Append [0x12, 0x34]) = 0 :=
  crc_append_recompute_zero [0x12, 0x34] (by decide)

theorem PaddedDataLength_dvd (nbytes block_size : Nat)
    (hdvd : block_size ∣ SIZE_T_MOD) :
    block_size ∣ PaddedDataLength nbytes block_size := by
  unfold PaddedDataLength
  split
  · exact (Nat.dvd_mod_iff hdvd).mpr (dvd_mul_left block_size _)
  · next h =>
      push_neg at h
      exact Nat.dvd_of_mod_eq_zero h.2

/-- C6 counterexample: on the 16-bit `size_t` of the PIC18 target the
product `((0xFFF9 / 8) + 1) * 8 = 0x10000` wraps to `0`, so although
`block_size = 8` is positive the result is neither positive nor at
least `nbytes`. -/
theorem PaddedDataLength_wrap_counterexample :
    0 < (8 : Nat) ∧ PaddedDataLength 0xFFF9 8 = 0 ∧
    ¬ (0 < PaddedDataLength 0xFFF9 8 ∧
       0xFFF9 ≤ PaddedDataLength 0xFFF9 8) := by decide

/-- C6 (amended): whenever the `size_t` computation cannot wrap — the
block size is positive and representable and `nbytes + block_size` fits
in `size_t` — `PaddedDataLength nbytes block_size` is a positive
multiple of `block_size`, at least `nbytes`, exceeding it by less than
`block_size` whenever `nbytes ≠ 0`, and equal to `block_size` when
`nbytes = 0`. -/
theorem PaddedDataLength_spec (nbytes block_size : Nat)
    (hbs : 0 < block_size) (hbsr : block_size < SIZE_T_MOD)
    (hno : nbytes + block_size ≤ SIZE_T_MOD) :
    block_size ∣ PaddedDataLength nbytes block_size ∧
    0 < PaddedDataLength nbytes block_size ∧
    nbytes ≤ PaddedDataLength nbytes block_size ∧
    (nbytes ≠ 0 → PaddedDataLength nbytes block_size - nbytes < block_size) ∧
    (nbytes = 0 → PaddedDataLength nbytes block_size = block_size) := by
  unfold PaddedDataLength
  by_cases h0 : nbytes = 0
  · subst h0
    rw [if_pos (Or.inl rfl), Nat.zero_div, Nat.zero_add,
      Nat.mod_eq_of_lt (show (1 : Nat) < SIZE_T_MOD by decide),
      Nat.one_mul, Nat.mod_eq_of_lt hbsr]
    exact ⟨dvd_rfl, hbs, Nat.zero_le _, fun hc => absurd rfl hc, fun _ => rfl⟩
  · by_cases hm : nbytes % block_size = 0
    · rw [if_neg (by
        rintro (hc | hc)
        · exact h0 hc
        · exact hc hm)]
      exact ⟨Nat.dvd_of_mod_eq_zero hm, Nat.pos_of_ne_zero h0, le_refl _,
        fun _ => by rw [Nat.sub_self]; exact hbs, fun hc => absurd hc h0⟩
    · rw [if_pos (Or.inr hm)]
      set q := nbytes / block_size with hq
      set r := nbytes % block_size with hr
      have hkey : block_size * q + r = nbytes := by
        rw [hq, hr]; exact Nat.div_add_mod nbytes block_size
      have hrlt : r < block_size := by
        rw [hr]; exact Nat.mod_lt nbytes hbs
      have hrpos : 0 < r := Nat.pos_of_ne_zero hm
      have hexp : (q + 1) * block_size = block_size * q + block_size := by ring
      have hqn : q ≤ nbytes := by
        rw [hq]; exact Nat.div_le_self nbytes block_size
      have hqlt : q + 1 < SIZE_T_MOD := by omega
      have hsum : (q + 1) * block_size = nbytes + (block_size - r) := by
        rw [hexp, ← hkey, Nat.add_assoc,
          Nat.add_sub_cancel' (le_of_lt hrlt)]
      have hplt : (q + 1) * block_size < SIZE_T_MOD := by
        rw [hsum]; omega
      rw [Nat.mod_eq_of_lt hqlt, Nat.mod_eq_of_lt hplt]
      refine ⟨dvd_mul_left block_size _,
        Nat.mul_pos (Nat.succ_pos q) hbs, ?_, fun _ => ?_,
        fun hc => absurd hc h0⟩
      · calc nbytes = block_size * q + r := hkey.symm
          _ ≤ block_size * q + block_size := Nat.add_le_add_left (le_of_lt hrlt) _
          _ = (q + 1) * block_size := hexp.symm
      · rw [hexp, ← hkey, Nat.add_sub_add_left]
        exact Nat.sub_lt hbs hrpos

/-- C6 witness: concrete evaluation at `nbytes = 5`, `block_size = 8`,
where the `size_t` arithmetic cannot wrap. -/
theorem PaddedDataLength_spec_witness :
    0 < (8 : Nat) ∧ (8 : Nat) < SIZE_T_MOD ∧ 5 + 8 ≤ SIZE_T_MOD ∧
    (8 ∣ PaddedDataLength 5 8 ∧ 0 < PaddedDataLength 5 8 ∧
     5 ≤ PaddedDataLength 5 8 ∧
     (5 ≠ 0 → PaddedDataLength 5 8 - 5 < 8) ∧
     (5 = 0 → PaddedDataLength 5 8 = 8)) :=
  ⟨by decide, by decide, by decide,
    PaddedDataLength_spec 5 8 (by decide) (by decide) (by decide)⟩

/-! ## Key model (mifare.h, mifare_key.c) -/

/-- The key algorithm tag (`mifare.h`). -/
inductive MifareKeyType
  | T_DES
  | T_3DES
  | T_3K3DES
  | T_AES
  deriving DecidableEq, Repr

open MifareKeyType

/-- `KeyBlockSize` (mifare_crypto.c lines 569-584): 8 for the DES family,
16 for AES.  The C function reads only the key's type tag. -/
def KeyBlockSize : MifareKeyType → Nat
  | T_DES => 8
  | T_3DES => 8
  | T_3K3DES => 8
  | T_AES => 16

/-- `KeyMacingLength` (mifare_crypto.c lines 602-617): MAC (4 bytes) for
DES/3DES, CMAC (8 bytes) for 3K3DES/AES. -/
def KeyMacingLength : MifareKeyType → Nat
  | T_DES => 4
  | T_3DES => 4
  | T_3K3DES => 8
  | T_AES => 16 - 8

/-- `mifare_desfire_key` (mifare.h): algorithm tag, raw key bytes, the
two CMAC subkeys and the AES version byte.  The DES key schedules
`ks1`-`ks3` are derived deterministically from `data` by
`UpdateKeySchedules` (mifare_key.c lines 57-64), so they are not
separate state here: the abstract block primitives receive the relevant
8-byte slice of `data` directly. -/
structure MifareKey where
  type : MifareKeyType
  data : List Nat
  cmac_sk1 : List Nat := []
  cmac_sk2 : List Nat := []
  aes_version : Nat := 0
  deriving DecidableEq, Repr

/-- `MifareDesKeyNewWithVersion` (mifare_key.c lines 101-109): type DES,
the 8 key bytes duplicated into both halves. -/
def MifareDesKeyNewWithVersion (value : List Nat) : MifareKey :=
  { type := T_DES, data := value.take 8 ++ value.take 8 }

/-- `MifareDesKeyNew` (mifare_key.c lines 78-87): clear the version
(parity) bits, then create the key. -/
def MifareDesKeyNew (value : List Nat) : MifareKey :=
  MifareDesKeyNewWithVersion ((value.take 8).map (fun b => b &&& 0xFE))

/-- `Mifare3DesKeyNewWithVersion` (mifare_key.c lines 147-153). -/
def Mifare3DesKeyNewWithVersion (value : List Nat) : MifareKey :=
  { type := T_3DES, data := value.take 16 }

/-- `Mifare3DesKeyNew` (mifare_key.c lines 123-134): version hardcoded
to 0x00FF before building the key. -/
def Mifare3DesKeyNew (value : List Nat) : MifareKey :=
  Mifare3DesKeyNewWithVersion
    ((value.take 8).map (fun b => b &&& 0xFE) ++
     ((value.drop 8).take 8).map (fun b => b ||| 0x01))

/-- `Mifare3k3DesKeyNewWithVersion` (mifare_key.c lines 192-200). -/
def Mifare3k3DesKeyNewWithVersion (value : List Nat) : MifareKey :=
  { type := T_3K3DES, data := value.take 24 }

/-- `Mifare3k3DesKeyNew` (mifare_key.c lines 168-177). -/
def Mifare3k3DesKeyNew (value : List Nat) : MifareKey :=
  Mifare3k3DesKeyNewWithVersion
    ((value.take 8).map (fun b => b &&& 0xFE) ++ (value.drop 8).take 16)

/-- `MifareAesKeyNewWithVersion` (mifare_key.c lines 229-236). -/
def MifareAesKeyNewWithVersion (value : List Nat) (version : Nat) :
    MifareKey :=
  { type := T_AES, data := value.take 16, aes_version := version }

/-- `MifareAesKeyNew` (mifare_key.c lines 212-216). -/
def MifareAesKeyNew (value : List Nat) : MifareKey :=
  MifareAesKeyNewWithVersion value 0

/-- `MifareKeyGetVersion` (mifare_key.c lines 260-269): collect the low
bit of each of the first 8 key bytes, MSB first. -/
def MifareKeyGetVersion (key : MifareKey) : Nat :=
  (List.range 8).foldl
    (fun version n => version ||| ((key.data.getD n 0 &&& 1) <<< (7 - n))) 0

/-- One iteration of the `MifareKeySetVersion` loop (mifare_key.c lines
286-297).  In the non-DES branch, `key->data[n+8] |= ~version_bit` takes
the complement at C `int` width (32 bits here) and the result is
truncated back to `uint8_t` by the assignment, hence the
`0xFFFFFFFF ^^^ ·` and the final `&&& 0xFF`. -/
def MifareKeySetVersionByte (t : MifareKeyType) (version : Nat)
    (data : List Nat) (n : Nat) : List Nat :=
  let version_bit := (version &&& (1 <<< (7 - n))) >>> (7 - n)
  let d1 := data.set n ((data.getD n 0 &&& 0xFE) ||| version_bit)
  if t = T_DES then
    d1.set (n + 8) (d1.getD n 0)
  else
    d1.set (n + 8)
      (((d1.getD (n + 8) 0 &&& 0xFE) ||| (0xFFFFFFFF ^^^ version_bit)) &&& 0xFF)

/-- `MifareKeySetVersion` (mifare_key.c lines 283-298). -/
def MifareKeySetVersion (key : MifareKey) (version : Nat) : MifareKey :=
  { key with
    data := (List.range 8).foldl
      (MifareKeySetVersionByte key.type version) key.data }

/-! ## C8: key version round-trip -/

theorem or_even_mod_two (a w : Nat) : (a &&& 254 ||| w) % 2 = w % 2 := by
  rw [← Nat.and_one_is_mod, ← Nat.and_one_is_mod w,
    Nat.and_comm _ 1, Nat.and_or_distrib_left, Nat.and_comm 1 w,
    Nat.and_comm 1 (a &&& 254), Nat.and_assoc]
  norm_num

theorem version_byte_reconstruct : ∀ v < 256,
    ((((v &&& 128) >>> 7) % 2) <<< 7 ||| (((v &&& 64) >>> 6) % 2) <<< 6 |||
     (((v &&& 32) >>> 5) % 2) <<< 5 ||| (((v &&& 16) >>> 4) % 2) <<< 4 |||
     (((v &&& 8) >>> 3) % 2) <<< 3 ||| (((v &&& 4) >>> 2) % 2) <<< 2 |||
     (((v &&& 2) >>> 1) % 2) <<< 1 ||| v % 2) = v := by
  set_option maxRecDepth 10000 in decide

theorem exists_eight_cons (l : List Nat) (h : 8 ≤ l.length) :
    ∃ a0 a1 a2 a3 a4 a5 a6 a7 rest,
      l = a0 :: a1 :: a2 :: a3 :: a4 :: a5 :: a6 :: a7 :: rest := by
  match l with
  | a0 :: a1 :: a2 :: a3 :: a4 :: a5 :: a6 :: a7 :: rest =>
      exact ⟨a0, a1, a2, a3, a4, a5, a6, a7, rest, rfl⟩
  | [] | [_] | [_, _] | [_, _, _] | [_, _, _, _] | [_, _, _, _, _]
  | [_, _, _, _, _, _] | [_, _, _, _, _, _, _] => simp at h

/-- C8: `MifareKeyGetVersion` returns the version byte last written by
`MifareKeySetVersion`, for every key whose material spans at least the
8 version-carrying bytes (every freshly created DES-family key does). -/
theorem MifareKeyVersion_roundtrip (key : MifareKey) (v : Nat)
    (hlen : 8 ≤ key.data.length) (hv : v < 256) :
    MifareKeyGetVersion (MifareKeySetVersion key v) = v := by
  obtain ⟨t, d, s1, s2, av⟩ := key
  obtain ⟨a0, a1, a2, a3, a4, a5, a6, a7, rest, hdata⟩ :=
    exists_eight_cons d hlen
  subst hdata
  cases t <;>
    · simp [MifareKeySetVersion, MifareKeySetVersionByte, MifareKeyGetVersion,
        show List.range 8 = [0, 1, 2, 3, 4, 5, 6, 7] from rfl, or_even_mod_two]
      exact version_byte_reconstruct v hv

/-! ## C7: what SetVersion really does to the second key half -/

theorem nat_and_or_absorb (a b : Nat) : (a &&& b) ||| b = b := by
  apply Nat.eq_of_testBit_eq
  intro j
  simp [Nat.testBit_or, Nat.testBit_and]

theorem vbit_le_one (v k : Nat) : (v &&& (1 <<< k)) >>> k ≤ 1 := by
  rw [Nat.shiftRight_eq_div_pow]
  calc (v &&& (1 <<< k)) / 2 ^ k
      ≤ (1 <<< k) / 2 ^ k := Nat.div_le_div_right Nat.and_le_right
    _ = 1 := by
        rw [Nat.shiftLeft_eq, one_mul]
        exact Nat.div_self (Nat.pos_pow_of_pos k (by norm_num))

/-- The uint8_t truncation of `x |= ~w` after `x &= 0xfe`: the low bit
becomes the complement of `w` and the remaining seven bits are forced
to 1, whatever the previous byte value was. -/
theorem and_fe_or_complement (a w : Nat) (hw : w ≤ 1) :
    ((a &&& 0xFE) ||| (0xFFFFFFFF ^^^ w)) &&& 0xFF = 0xFF ^^^ w := by
  interval_cases w
  · rw [Nat.xor_zero, Nat.xor_zero, Nat.and_comm _ 0xFF,
      Nat.and_or_distrib_left, Nat.and_comm 0xFF (a &&& 0xFE), Nat.and_assoc,
      show (0xFE : Nat) &&& 0xFF = 0xFE from by decide,
      show (0xFF : Nat) &&& 0xFFFFFFFF = 0xFF from by decide,
      show a &&& 0xFE = (a &&& 0xFE) &&& 0xFF from by
        rw [Nat.and_assoc, show (0xFE : Nat) &&& 0xFF = 0xFE from by decide]]
    exact nat_and_or_absorb _ 0xFF
  · rw [show (0xFFFFFFFF : Nat) ^^^ 1 = 0xFFFFFFFE from by decide,
      show (0xFF : Nat) ^^^ 1 = 0xFE from by decide, Nat.and_comm _ 0xFF,
      Nat.and_or_distrib_left, Nat.and_comm 0xFF (a &&& 0xFE), Nat.and_assoc,
      show (0xFE : Nat) &&& 0xFF = 0xFE from by decide,
      show (0xFF : Nat) &&& 0xFFFFFFFE = 0xFE from by decide]
    exact nat_and_or_absorb a 0xFE

theorem exists_sixteen_cons (l : List Nat) (h : 16 ≤ l.length) :
    ∃ a0 a1 a2 a3 a4 a5 a6 a7 b0 b1 b2 b3 b4 b5 b6 b7 rest,
      l = a0 :: a1 :: a2 :: a3 :: a4 :: a5 :: a6 :: a7 ::
          b0 :: b1 :: b2 :: b3 :: b4 :: b5 :: b6 :: b7 :: rest := by
  obtain ⟨a0, a1, a2, a3, a4, a5, a6, a7, r, hr⟩ :=
    exists_eight_cons l (by omega)
  have hr8 : 8 ≤ r.length := by
    subst hr; simp at h; omega
  obtain ⟨b0, b1, b2, b3, b4, b5, b6, b7, rest, hrest⟩ :=
    exists_eight_cons r hr8
  subst hrest
  exact ⟨a0, a1, a2, a3, a4, a5, a6, a7, b0, b1, b2, b3, b4, b5, b6, b7,
    rest, hr⟩

/-- C7 counterexample: an all-zero 3DES key versioned with 0x00.  If
`MifareKeySetVersion` wrote only the complement of the version bit into
the low bit of each second-half byte and left the other seven bits
unchanged, byte 8 would become 0x01; the code actually produces 0xFF
because `|= ~version_bit` is an unmasked int-width complement. -/
theorem MifareKeySetVersion_secondHalf_counterexample :
    (MifareKeySetVersion (Mifare3DesKeyNewWithVersion
      (List.replicate 16 0)) 0).data.getD 8 0 = 0xFF ∧
    (MifareKeySetVersion (Mifare3DesKeyNewWithVersion
      (List.replicate 16 0)) 0).data.getD 8 0 ≠ 0x01 := by
  constructor
  · decide
  · decide

set_option maxHeartbeats 1600000 in
/-- C7 amended: on every algorithm wider than single DES,
`MifareKeySetVersion` writes the complement of version bit `n` into the
low bit of second-half byte `n`, and forces the other seven bits of that
byte to 1 (so the byte becomes `0xFF ^^^ version_bit`); it does not
preserve them. -/
theorem MifareKeySetVersion_secondHalf (key : MifareKey) (v n : Nat)
    (ht : key.type ≠ T_DES) (hlen : 16 ≤ key.data.length) (hn : n < 8) :
    (MifareKeySetVersion key v).data.getD (n + 8) 0
      = 0xFF ^^^ ((v &&& (1 <<< (7 - n))) >>> (7 - n)) := by
  obtain ⟨t, d, s1, s2, av⟩ := key
  obtain ⟨a0, a1, a2, a3, a4, a5, a6, a7, b0, b1, b2, b3, b4, b5, b6, b7,
    rest, hdata⟩ := exists_sixteen_cons d hlen
  subst hdata
  interval_cases n <;> cases t <;>
    first
      | exact absurd rfl ht
      | (simp [MifareKeySetVersion, MifareKeySetVersionByte,
          show List.range 8 = [0, 1, 2, 3, 4, 5, 6, 7] from rfl]
         exact and_fe_or_complement _ _ (by
           first
             | exact vbit_le_one v _
             | omega
             | (have hx : v &&& 2 ≤ 2 := Nat.and_le_right; omega)
             | (have hx : v &&& 4 ≤ 4 := Nat.and_le_right; omega)
             | (have hx : v &&& 8 ≤ 8 := Nat.and_le_right; omega)
             | (have hx : v &&& 16 ≤ 16 := Nat.and_le_right; omega)
             | (have hx : v &&& 32 ≤ 32 := Nat.and_le_right; omega)
             | (have hx : v &&& 64 ≤ 64 := Nat.and_le_right; omega)
             | (have hx : v &&& 128 ≤ 128 := Nat.and_le_right; omega)))

/-- C8 witness: the spec's end-to-end scenario — a 3DES key built from
16 bytes of all-ones material, `SetVersion 0xAA`, then `GetVersion`
returns 0xAA. -/
theorem MifareKeyVersion_roundtrip_witness :
    8 ≤ (Mifare3DesKeyNewWithVersion (List.replicate 16 0xFF)).data.length ∧
    0xAA < 256 ∧
    MifareKeyGetVersion (MifareKeySetVersion
      (Mifare3DesKeyNewWithVersion (List.replicate 16 0xFF)) 0xAA) = 0xAA :=
  ⟨by decide, by decide,
   MifareKeyVersion_roundtrip _ 0xAA (by decide) (by decide)⟩

/-- C7 amended witness: concrete second-half byte after versioning a
3DES key with 0xAA. -/
theorem MifareKeySetVersion_secondHalf_witness :
    (MifareKeySetVersion (Mifare3DesKeyNewWithVersion
        (List.replicate 16 0x33)) 0xAA).data.getD (0 + 8) 0
      = 0xFF ^^^ ((0xAA &&& (1 <<< (7 - 0))) >>> (7 - 0)) :=
  MifareKeySetVersion_secondHalf _ 0xAA 0 (by decide) (by decide) (by decide)

/-! ## Block-chaining engine (mifare_crypto.c: MifareCipherSingleBlock,
MifareCipherBlocksChained) -/

/-- Direction of a cipher operation (mifare_crypto.h). -/
inductive mifare_crypto_direction
  | MCD_SEND
  | MCD_RECEIVE
  deriving DecidableEq, Repr

/-- Cipher vs decipher (mifare_crypto.h). -/
inductive mifare_crypto_operation
  | MCO_ENCIPHER
  | MCO_DECIPHER
  deriving DecidableEq, Repr

open mifare_crypto_direction mifare_crypto_operation

/-- The external single-block primitives of the design (`DES_ecb_encrypt`
of des.c keyed by a schedule expanded from 8 key bytes, and
`AES_encrypt`/`AES_decrypt` of aes.h keyed from 16 key bytes): each maps
raw key material and one block to one block. -/
structure BlockPrims where
  desE : List Nat → List Nat → List Nat
  desD : List Nat → List Nat → List Nat
  aesE : List Nat → List Nat → List Nat
  aesD : List Nat → List Nat → List Nat

/-- The `switch (key->type) / switch (operation)` dispatch of
`MifareCipherSingleBlock` (mifare_crypto.c lines 1307-1375): single DES
uses ks1; 3DES runs encrypt-decrypt-encrypt on ks1/ks2/ks1 (inverse:
d-e-d on the same schedules); 3K3DES runs e-d-e on ks1/ks2/ks3 and
d-e-d on ks3/ks2/ks1; AES is keyed from the full 16 data bytes.
ks1/ks2/ks3 are expanded from bytes 0-7, 8-15, 16-23 of the key data
(`UpdateKeySchedules`, mifare_key.c lines 57-64). -/
def KeyOperation (p : BlockPrims) (key : MifareKey)
    (operation : mifare_crypto_operation) (block : List Nat) : List Nat :=
  let ks1 := key.data.take 8
  let ks2 := (key.data.drop 8).take 8
  let ks3 := (key.data.drop 16).take 8
  match key.type, operation with
  | T_DES, MCO_ENCIPHER => p.desE ks1 block
  | T_DES, MCO_DECIPHER => p.desD ks1 block
  | T_3DES, MCO_ENCIPHER => p.desE ks1 (p.desD ks2 (p.desE ks1 block))
  | T_3DES, MCO_DECIPHER => p.desD ks1 (p.desE ks2 (p.desD ks1 block))
  | T_3K3DES, MCO_ENCIPHER => p.desE ks3 (p.desD ks2 (p.desE ks1 block))
  | T_3K3DES, MCO_DECIPHER => p.desD ks1 (p.desE ks2 (p.desD ks3 block))
  | T_AES, MCO_ENCIPHER => p.aesE (key.data.take 16) block
  | T_AES, MCO_DECIPHER => p.aesD (key.data.take 16) block

/-- `MifareCipherSingleBlock` (mifare_crypto.c lines 1292-1385) as a
function from (data block, ivect) to (new data block, new ivect):
Send xors the ivect into the block before the primitive and the result
becomes the next ivect; Receive keeps the ciphertext copy as the next
ivect and xors the old ivect into the primitive's output. -/
def MifareCipherSingleBlock (p : BlockPrims) (key : MifareKey)
    (data ivect : List Nat) (direction : mifare_crypto_direction)
    (operation : mifare_crypto_operation) : List Nat × List Nat :=
  match direction with
  | MCD_SEND =>
      let e := KeyOperation p key operation (XorBytes ivect data)
      (e, e)
  | MCD_RECEIVE =>
      let e := KeyOperation p key operation data
      (XorBytes ivect e, data)

/-- The `while (offset < data_size)` loop of `MifareCipherBlocksChained`
(mifare_crypto.c lines 1442-1446), processing consecutive `block_size`
chunks.  The loop is embedded with a fuel counter so it computes by
structural recursion; `data.length` fuel always suffices because
`block_size` is 8 or 16 (never 0) in every use, so each iteration
consumes at least one byte. -/
def CipherBlocksGo (p : BlockPrims) (key : MifareKey)
    (direction : mifare_crypto_direction)
    (operation : mifare_crypto_operation) (block_size : Nat) :
    Nat → List Nat → List Nat → List Nat × List Nat
  | 0, data, ivect => (data, ivect)
  | fuel + 1, data, ivect =>
      if data = [] then (data, ivect)
      else
        let s := MifareCipherSingleBlock p key (data.take block_size) ivect
          direction operation
        let rest := CipherBlocksGo p key direction operation block_size
          fuel (data.drop block_size) s.2
        (s.1 ++ rest.1, rest.2)

def CipherBlocksLoop (p : BlockPrims) (key : MifareKey)
    (direction : mifare_crypto_direction)
    (operation : mifare_crypto_operation) (block_size : Nat)
    (data ivect : List Nat) : List Nat × List Nat :=
  CipherBlocksGo p key direction operation block_size data.length data ivect

/-- `MifareCipherBlocksChained` (mifare_crypto.c lines 1414-1447) in its
tag-NULL form: both key and ivect are supplied by the caller. -/
def MifareCipherBlocksChained (p : BlockPrims) (key : MifareKey)
    (ivect data : List Nat) (direction : mifare_crypto_direction)
    (operation : mifare_crypto_operation) : List Nat × List Nat :=
  CipherBlocksLoop p key direction operation (KeyBlockSize key.type)
    data ivect

/-- A pair of external single-block primitives forms a block cipher on
`bs`-byte blocks: both directions preserve the length and invert each
other, for every key material. -/
def IsBlockCipherPair (e d : List Nat → List Nat → List Nat)
    (bs : Nat) : Prop :=
  ∀ k b, b.length = bs →
    (e k b).length = bs ∧ (d k b).length = bs ∧
    d k (e k b) = b ∧ e k (d k b) = b

/-! ## C1: chained cipher round-trip -/

theorem KeyBlockSize_pos (t : MifareKeyType) : 0 < KeyBlockSize t := by
  cases t <;> simp [KeyBlockSize]

theorem KeyBlockSize_dvd_size_mod (t : MifareKeyType) :
    KeyBlockSize t ∣ SIZE_T_MOD := by
  cases t <;> decide

theorem XorBytes_length (ivect data : List Nat) :
    (XorBytes ivect data).length = min ivect.length data.length := by
  simp [XorBytes]

theorem XorBytes_cancel :
    ∀ (ivect data : List Nat), data.length ≤ ivect.length →
      XorBytes ivect (XorBytes ivect data) = data := by
  intro ivect
  induction ivect with
  | nil =>
      intro data h
      have : data = [] := List.eq_nil_of_length_eq_zero (by simpa using h)
      subst this
      rfl
  | cons i ivs ih =>
      intro data h
      cases data with
      | nil => rfl
      | cons x xs =>
          show (x ^^^ i ^^^ i) :: XorBytes ivs (XorBytes ivs xs) = x :: xs
          rw [Nat.xor_cancel_right, ih xs (by simpa using h)]

theorem KeyOperation_length (p : BlockPrims) (key : MifareKey)
    (operation : mifare_crypto_operation) (b : List Nat)
    (hdes : IsBlockCipherPair p.desE p.desD 8)
    (haes : IsBlockCipherPair p.aesE p.aesD 16)
    (hb : b.length = KeyBlockSize key.type) :
    (KeyOperation p key operation b).length = KeyBlockSize key.type := by
  rcases key with ⟨t, d, s1, s2, av⟩
  cases t <;> cases operation <;>
    simp only [KeyOperation, KeyBlockSize] at hb ⊢
  · exact (hdes _ b hb).1
  · exact (hdes _ b hb).2.1
  · exact (hdes _ _ ((hdes _ _ ((hdes _ b hb).1)).2.1)).1
  · exact (hdes _ _ ((hdes _ _ ((hdes _ b hb).2.1)).1)).2.1
  · exact (hdes _ _ ((hdes _ _ ((hdes _ b hb).1)).2.1)).1
  · exact (hdes _ _ ((hdes _ _ ((hdes _ b hb).2.1)).1)).2.1
  · exact (haes _ b hb).1
  · exact (haes _ b hb).2.1

theorem KeyOperation_inverse (p : BlockPrims) (key : MifareKey)
    (b : List Nat)
    (hdes : IsBlockCipherPair p.desE p.desD 8)
    (haes : IsBlockCipherPair p.aesE p.aesD 16)
    (hb : b.length = KeyBlockSize key.type) :
    KeyOperation p key MCO_DECIPHER (KeyOperation p key MCO_ENCIPHER b)
      = b := by
  rcases key with ⟨t, d, s1, s2, av⟩
  cases t <;> simp only [KeyOperation, KeyBlockSize] at hb ⊢
  · exact (hdes _ b hb).2.2.1
  · -- 3DES: d1 (e2 (d1 (e1 (d2 (e1 b))))) = b
    have h1 : (p.desE (d.take 8) b).length = 8 := (hdes _ b hb).1
    have h2 : (p.desD ((d.drop 8).take 8) (p.desE (d.take 8) b)).length = 8 :=
      (hdes _ _ h1).2.1
    rw [(hdes (d.take 8) _ h2).2.2.1, (hdes ((d.drop 8).take 8) _ h1).2.2.2,
      (hdes (d.take 8) b hb).2.2.1]
  · -- 3K3DES: d1 (e2 (d3 (e3 (d2 (e1 b))))) = b
    have h1 : (p.desE (d.take 8) b).length = 8 := (hdes _ b hb).1
    have h2 : (p.desD ((d.drop 8).take 8) (p.desE (d.take 8) b)).length = 8 :=
      (hdes _ _ h1).2.1
    rw [(hdes ((d.drop 16).take 8) _ h2).2.2.1,
      (hdes ((d.drop 8).take 8) _ h1).2.2.2,
      (hdes (d.take 8) b hb).2.2.1]
  · exact (haes _ b hb).2.2.1

theorem CipherBlocksGo_fuel (p : BlockPrims) (key : MifareKey)
    (direction : mifare_crypto_direction)
    (operation : mifare_crypto_operation) (block_size : Nat)
    (hbs : block_size ≠ 0) :
    ∀ (f1 f2 : Nat) (data ivect : List Nat),
      data.length ≤ f1 → data.length ≤ f2 →
      CipherBlocksGo p key direction operation block_size f1 data ivect
        = CipherBlocksGo p key direction operation block_size f2 data
            ivect := by
  intro f1
  induction f1 with
  | zero =>
      intro f2 data ivect h1 h2
      have hd : data = [] := List.eq_nil_of_length_eq_zero (by omega)
      subst hd
      cases f2 <;> simp [CipherBlocksGo]
  | succ f1 ih =>
      intro f2 data ivect h1 h2
      cases data with
      | nil => cases f2 <;> simp [CipherBlocksGo]
      | cons x xs =>
          cases f2 with
          | zero => simp at h2
          | succ f2 =>
              simp only [CipherBlocksGo, if_neg (List.cons_ne_nil x xs)]
              rw [ih f2 ((x :: xs).drop block_size) _
                (by simp [List.length_drop] at h1 ⊢; omega)
                (by simp [List.length_drop] at h2 ⊢; omega)]

theorem CipherBlocksLoop_nil (p : BlockPrims) (key : MifareKey)
    (direction : mifare_crypto_direction)
    (operation : mifare_crypto_operation) (block_size : Nat)
    (ivect : List Nat) :
    CipherBlocksLoop p key direction operation block_size [] ivect
      = ([], ivect) := rfl

theorem CipherBlocksLoop_cons (p : BlockPrims) (key : MifareKey)
    (direction : mifare_crypto_direction)
    (operation : mifare_crypto_operation) (block_size : Nat)
    (data ivect : List Nat) (hd : data ≠ []) (hbs : block_size ≠ 0) :
    CipherBlocksLoop p key direction operation block_size data ivect =
      ((MifareCipherSingleBlock p key (data.take block_size) ivect
          direction operation).1 ++
        (CipherBlocksLoop p key direction operation block_size
          (data.drop block_size)
          (MifareCipherSingleBlock p key (data.take block_size) ivect
            direction operation).2).1,
       (CipherBlocksLoop p key direction operation block_size
          (data.drop block_size)
          (MifareCipherSingleBlock p key (data.take block_size) ivect
            direction operation).2).2) := by
  obtain ⟨x, xs, hx⟩ : ∃ x xs, data = x :: xs := by
    cases data with
    | nil => exact absurd rfl hd
    | cons x xs => exact ⟨x, xs, rfl⟩
  subst hx
  show CipherBlocksGo p key direction operation block_size
    (x :: xs).length (x :: xs) ivect = _
  rw [show (x :: xs).length = xs.length + 1 from rfl]
  simp only [CipherBlocksGo, if_neg (List.cons_ne_nil x xs)]
  rw [CipherBlocksGo_fuel p key direction operation block_size hbs
    xs.length ((x :: xs).drop block_size).length ((x :: xs).drop block_size)
    _ (by simp [List.length_drop]; omega) (le_refl _)]
  rfl

theorem CipherBlocksLoop_roundtrip (p : BlockPrims) (key : MifareKey)
    (hdes : IsBlockCipherPair p.desE p.desD 8)
    (haes : IsBlockCipherPair p.aesE p.aesD 16) :
    ∀ (n : Nat) (data ivect : List Nat),
      data.length = KeyBlockSize key.type * n →
      ivect.length = KeyBlockSize key.type →
      (CipherBlocksLoop p key MCD_RECEIVE MCO_DECIPHER
        (KeyBlockSize key.type)
        (CipherBlocksLoop p key MCD_SEND MCO_ENCIPHER
          (KeyBlockSize key.type) data ivect).1 ivect).1 = data := by
  intro n
  induction n with
  | zero =>
      intro data ivect hlen hiv
      have hd : data = [] := List.eq_nil_of_length_eq_zero (by omega)
      subst hd
      rw [CipherBlocksLoop_nil]
      show (CipherBlocksLoop p key MCD_RECEIVE MCO_DECIPHER _ [] ivect).1 = []
      rw [CipherBlocksLoop_nil]
  | succ n ih =>
      intro data ivect hlen hiv
      have hbspos : 0 < KeyBlockSize key.type := KeyBlockSize_pos key.type
      have hge : KeyBlockSize key.type ≤ data.length := by
        rw [hlen, Nat.mul_succ]
        omega
      have hdne : data ≠ [] := by
        intro hc
        rw [hc] at hge
        simp at hge
        omega
      have htake : (data.take (KeyBlockSize key.type)).length
          = KeyBlockSize key.type := by
        rw [List.length_take]
        omega
      have hxlen : (XorBytes ivect (data.take (KeyBlockSize key.type))).length
          = KeyBlockSize key.type := by
        rw [XorBytes_length, hiv, htake]
        omega
      have hdrop : (data.drop (KeyBlockSize key.type)).length
          = KeyBlockSize key.type * n := by
        rw [List.length_drop, hlen, Nat.mul_succ]
        exact Nat.add_sub_cancel _ _
      rw [CipherBlocksLoop_cons p key MCD_SEND MCO_ENCIPHER _ data ivect hdne
        (by omega)]
      simp only [MifareCipherSingleBlock]
      set e := KeyOperation p key MCO_ENCIPHER
        (XorBytes ivect (data.take (KeyBlockSize key.type))) with he
      have helen : e.length = KeyBlockSize key.type := by
        rw [he]
        exact KeyOperation_length p key MCO_ENCIPHER _ hdes haes hxlen
      have hene : e ≠ [] := by
        intro hc
        rw [hc] at helen
        simp at helen
        omega
      set rs := (CipherBlocksLoop p key MCD_SEND MCO_ENCIPHER
        (KeyBlockSize key.type) (data.drop (KeyBlockSize key.type)) e).1
        with hrs
      rw [CipherBlocksLoop_cons p key MCD_RECEIVE MCO_DECIPHER _ (e ++ rs)
        ivect (by simp [hene]) (by omega)]
      simp only [MifareCipherSingleBlock]
      rw [show (e ++ rs).take (KeyBlockSize key.type) = e from by
          rw [← helen, List.take_left],
        show (e ++ rs).drop (KeyBlockSize key.type) = rs from by
          rw [← helen, List.drop_left]]
      rw [he, KeyOperation_inverse p key _ hdes haes hxlen, ← he,
        XorBytes_cancel ivect _ (by rw [htake, hiv])]
      show data.take (KeyBlockSize key.type) ++
        (CipherBlocksLoop p key MCD_RECEIVE MCO_DECIPHER _ rs e).1 = data
      rw [hrs, ih (data.drop (KeyBlockSize key.type)) e hdrop helen,
        List.take_append_drop]

/-- C1: for every supported key algorithm, chained Send/Encipher
followed by chained Receive/Decipher under an independently
reconstructed copy of the same initial IV returns the original buffer,
whenever the buffer length is a multiple of the key's block size and
the external single-block primitives are block ciphers. -/
theorem MifareCipherBlocksChained_roundtrip (p : BlockPrims)
    (key : MifareKey) (data ivect : List Nat)
    (hdes : IsBlockCipherPair p.desE p.desD 8)
    (haes : IsBlockCipherPair p.aesE p.aesD 16)
    (hdiv : KeyBlockSize key.type ∣ data.length)
    (hiv : ivect.length = KeyBlockSize key.type) :
    (MifareCipherBlocksChained p key ivect
      (MifareCipherBlocksChained p key ivect data
        MCD_SEND MCO_ENCIPHER).1
      MCD_RECEIVE MCO_DECIPHER).1 = data := by
  obtain ⟨n, hn⟩ := hdiv
  exact CipherBlocksLoop_roundtrip p key hdes haes n data ivect hn hiv

/-- Degenerate primitives (each direction is the identity on the block)
used to instantiate hypothesis-bearing theorems at concrete inputs. -/
def IdPrims : BlockPrims :=
  ⟨fun _ b => b, fun _ b => b, fun _ b => b, fun _ b => b⟩

theorem IdPrims_pair (bs : Nat) :
    IsBlockCipherPair IdPrims.desE IdPrims.desD bs ∧
    IsBlockCipherPair IdPrims.aesE IdPrims.aesD bs :=
  ⟨fun _ _ hb => ⟨hb, hb, rfl, rfl⟩, fun _ _ hb => ⟨hb, hb, rfl, rfl⟩⟩

/-- C1 witness: concrete 3DES key and two-block buffer under `IdPrims`. -/
theorem MifareCipherBlocksChained_roundtrip_witness :
    (MifareCipherBlocksChained IdPrims
      ⟨T_3DES, List.replicate 16 7, [], [], 0⟩ (List.replicate 8 3)
      (MifareCipherBlocksChained IdPrims
        ⟨T_3DES, List.replicate 16 7, [], [], 0⟩ (List.replicate 8 3)
        [1, 2, 3, 4, 5, 6, 7, 8, 9, 10, 11, 12, 13, 14, 15, 16]
        MCD_SEND MCO_ENCIPHER).1
      MCD_RECEIVE MCO_DECIPHER).1
    = [1, 2, 3, 4, 5, 6, 7, 8, 9, 10, 11, 12, 13, 14, 15, 16] :=
  MifareCipherBlocksChained_roundtrip IdPrims _ _ _
    (IdPrims_pair 8).1 (IdPrims_pair 16).2 (by decide) (by decide)

/-! ## Card session state and communication settings (mifare.h) -/

/-- Authentication scheme (mifare.h line 403). -/
inductive AuthScheme
  | AS_LEGACY
  | AS_NEW
  deriving DecidableEq, Repr

open AuthScheme

def MAX_CRYPTO_BLOCK_SIZE : Nat := 16

def NOT_YET_AUTHENTICATED : Nat := 255

def MDCM_PLAIN : Nat := 0x0000
def MDCM_MACED : Nat := 0x0001
def MDCM_ENCIPHERED : Nat := 0x0003
def MDCM_MASK : Nat := 0x000F
def CMAC_COMMAND : Nat := 0x0010
def CMAC_VERIFY : Nat := 0x0020
def MAC_COMMAND : Nat := 0x0100
def MAC_VERIFY : Nat := 0x0200
def ENC_COMMAND : Nat := 0x1000
def NO_CRC : Nat := 0x2000
def MAC_LENGTH : Nat := 4
def CMAC_LENGTH : Nat := 8
def MF_AUTHENTICATE_LEGACY : Nat := 0x0A
def MF_AUTHENTICATE_ISO : Nat := 0x1A
def MF_AUTHENTICATE_AES : Nat := 0xAA
def CRYPTO_ERROR : Nat := 0x01
def MF_OPERATION_OK : Nat := 0x00

/-- `mifare_tag` (mifare.h lines 393-409), restricted to the fields the
crypto pipeline reads or writes.  `crypto_buffer` is scratch space fully
rewritten before each use, so it is not state; `cmac` holds the
`KeyBlockSize` bytes last written by `Cmac`. -/
structure MifareTag where
  active : Bool
  last_picc_error : Nat
  last_pcd_error : Nat
  session_key : MifareKey
  authentication_scheme : AuthScheme
  authenticated_key_no : Nat
  ivect : List Nat
  cmac : List Nat
  deriving DecidableEq, Repr

/-- `MifareCipherBlocksChained` (mifare_crypto.c lines 1414-1447) called
with a tag: the key defaults to the session key, the ivect is the tag's
running 16-byte ivect, and for a legacy-scheme tag the whole ivect is
first reset to zeros (`memset(ivect, 0, MAX_CRYPTO_BLOCK_SIZE)`, lines
1428-1434).  The block loop reads and rewrites only the first
`block_size` bytes of the ivect buffer; the final ivect is stored back
into the tag, keeping the untouched tail bytes. -/
def MifareCipherBlocksChainedTag (p : BlockPrims) (tag : MifareTag)
    (key : Option MifareKey) (data : List Nat)
    (direction : mifare_crypto_direction)
    (operation : mifare_crypto_operation) : List Nat × MifareTag :=
  let k := key.getD tag.session_key
  let ivect0 := match tag.authentication_scheme with
    | AS_LEGACY => List.replicate MAX_CRYPTO_BLOCK_SIZE 0
    | AS_NEW => tag.ivect
  let bs := KeyBlockSize k.type
  let r := CipherBlocksLoop p k direction operation bs data (ivect0.take bs)
  (r.1, { tag with ivect := r.2 ++ ivect0.drop bs })

/-! ## CMAC (mifare_crypto.c: CmacGenerateSubkeys, Cmac) -/

/-- `CmacGenerateSubkeys` (mifare_crypto.c lines 193-218): L is the
block cipher of a zero block; K1 = L << 1, xored with R in its last
byte when L's top bit is set; K2 derived from K1 by the same rule. -/
def CmacGenerateSubkeys (p : BlockPrims) (key : MifareKey) : MifareKey :=
  let kbs := KeyBlockSize key.type
  let R := if kbs = 8 then 0x1B else 0x87
  let l := (MifareCipherBlocksChained p key (List.replicate kbs 0)
    (List.replicate kbs 0) MCD_RECEIVE MCO_ENCIPHER).1
  let sk1a := Lsl l
  let sk1 := if l.getD 0 0 &&& 0x80 ≠ 0 then
      sk1a.set (kbs - 1) ((sk1a.getD (kbs - 1) 0) ^^^ R)
    else sk1a
  let sk2a := Lsl sk1
  let sk2 := if sk1.getD 0 0 &&& 0x80 ≠ 0 then
      sk2a.set (kbs - 1) ((sk2a.getD (kbs - 1) 0) ^^^ R)
    else sk2a
  { key with cmac_sk1 := sk1, cmac_sk2 := sk2 }

/-- `Cmac` (mifare_crypto.c lines 254-281): pad a non-complete last
block with `0x80 0..0` and xor K2 into it (K1 when the message is a
non-empty whole number of blocks), CBC-encrypt under the given ivect,
and return the first `KeyBlockSize` bytes of the final ivect together
with that final ivect (the C code mutates the caller's ivect). -/
def Cmac (p : BlockPrims) (key : MifareKey) (ivect data : List Nat) :
    List Nat × List Nat :=
  let kbs := KeyBlockSize key.type
  let buffer :=
    if data.length = 0 ∨ data.length % kbs ≠ 0 then
      let padded := data ++ 0x80 :: List.replicate
        ((kbs - (data.length + 1) % kbs) % kbs) 0
      padded.take (padded.length - kbs) ++
        XorBytes key.cmac_sk2 (padded.drop (padded.length - kbs))
    else
      data.take (data.length - kbs) ++
        XorBytes key.cmac_sk1 (data.drop (data.length - kbs))
  let r := MifareCipherBlocksChained p key ivect buffer MCD_SEND MCO_ENCIPHER
  (r.2.take kbs, r.2)

/-! ## Transformation pipeline lengths (mifare_crypto.c) -/

/-- `MacedDataLength` (mifare_crypto.c lines 659-662). -/
def MacedDataLength (key : MifareKey) (nbytes : Nat) : Nat :=
  nbytes + KeyMacingLength key.type

/-- `EncipheredDataLength` (mifare_crypto.c lines 683-704). -/
def EncipheredDataLength (tag : MifareTag) (nbytes : Nat)
    (communication_settings : Nat) : Nat :=
  let crc_length :=
    if communication_settings &&& NO_CRC ≠ 0 then 0
    else match tag.authentication_scheme with
      | AS_LEGACY => 2
      | AS_NEW => 4
  PaddedDataLength (nbytes + crc_length)
    (KeyBlockSize tag.session_key.type)

/-! ## Preprocess (mifare_crypto.c MifareCryptoPreprocessData) -/

/-- The `MDCM_MACED / AS_LEGACY` arm of `MifareCryptoPreprocessData`
(mifare_crypto.c lines 825-853): zero-pad the payload after the header,
CBC-encrypt it through the tag, keep 4 bytes starting 8 bytes before the
end of the encrypted buffer as the MAC and append them to the original
data. -/
def PreprocessMacedLegacy (p : BlockPrims) (tag : MifareTag)
    (data : List Nat) (offset : Nat) (communication_settings : Nat) :
    Option (List Nat) × Int × MifareTag :=
  if communication_settings &&& MAC_COMMAND = 0 then
    (some data, (data.length : Int), tag)
  else
    let nbytes := data.length
    let edl := PaddedDataLength (nbytes - offset)
      (KeyBlockSize tag.session_key.type) + offset
    let buf := data ++ List.replicate (edl - nbytes) 0
    let r := MifareCipherBlocksChainedTag p tag none (buf.drop offset)
      MCD_SEND MCO_ENCIPHER
    let mac := (((buf.take offset) ++ r.1).drop (edl - 8)).take MAC_LENGTH
    (some (data ++ mac), ((nbytes + MAC_LENGTH : Nat) : Int), r.2)

/-- The `AS_NEW` arm shared by `MDCM_PLAIN` (falling through with
`append_mac = FALSE`) and `MDCM_MACED` of `MifareCryptoPreprocessData`
(mifare_crypto.c lines 809-820, 855-871): update the running CMAC over
the whole buffer; append the 8 CMAC bytes only in MACed mode. -/
def PreprocessMacedNew (p : BlockPrims) (tag : MifareTag)
    (data : List Nat) (communication_settings : Nat)
    (append_mac : Bool) : Option (List Nat) × Int × MifareTag :=
  if communication_settings &&& CMAC_COMMAND = 0 then
    (some data, (data.length : Int), tag)
  else
    let kbs := KeyBlockSize tag.session_key.type
    let r := Cmac p tag.session_key (tag.ivect.take kbs) data
    let tag2 := { tag with ivect := r.2 ++ tag.ivect.drop kbs, cmac := r.1 }
    if append_mac then
      (some (data ++ r.1.take CMAC_LENGTH),
       ((data.length + CMAC_LENGTH : Nat) : Int), tag2)
    else
      (some data, (data.length : Int), tag2)

/-- The `MDCM_ENCIPHERED` arm of `MifareCryptoPreprocessData`
(mifare_crypto.c lines 875-905): append the scheme's CRC (CRC16 over the
bytes after the header for legacy, CRC32 over the whole buffer for new),
zero-pad the payload region to the enciphered length, and CBC-transform
the region after the header through the tag — enciphering for the new
scheme and deciphering for the legacy scheme. -/
def PreprocessEnciphered (p : BlockPrims) (tag : MifareTag)
    (data : List Nat) (offset : Nat) (communication_settings : Nat) :
    Option (List Nat) × Int × MifareTag :=
  if communication_settings &&& ENC_COMMAND = 0 then
    (some data, (data.length : Int), tag)
  else
    let nbytes := data.length
    let edl := EncipheredDataLength tag (nbytes - offset)
      communication_settings + offset
    let res2 :=
      if communication_settings &&& NO_CRC = 0 then
        match tag.authentication_scheme with
        | AS_LEGACY => data ++ MifareCrc16Bytes (data.drop offset)
        | AS_NEW => data ++ MifareCrc32Bytes data
      else data
    let res3 := res2 ++ List.replicate (edl - res2.length) 0
    let r := MifareCipherBlocksChainedTag p tag none (res3.drop offset)
      MCD_SEND (match tag.authentication_scheme with
        | AS_NEW => MCO_ENCIPHER
        | AS_LEGACY => MCO_DECIPHER)
    (some (res3.take offset ++ r.1), ((edl : Nat) : Int), r.2)

/-- `MifareCryptoPreprocessData` (mifare_crypto.c lines 802-914),
returning (result buffer or NULL, new nbytes, updated tag).  The
`if (!key)` guard of the C code can never fire (`&tag->session_key` is
never NULL), so it has no counterpart here. -/
def MifareCryptoPreprocessData (p : BlockPrims) (tag : MifareTag)
    (data : List Nat) (offset : Nat) (communication_settings : Nat) :
    Option (List Nat) × Int × MifareTag :=
  let mode := communication_settings &&& MDCM_MASK
  if mode = MDCM_PLAIN then
    match tag.authentication_scheme with
    | AS_LEGACY => (some data, (data.length : Int), tag)
    | AS_NEW => PreprocessMacedNew p tag data communication_settings false
  else if mode = MDCM_MACED then
    match tag.authentication_scheme with
    | AS_LEGACY =>
        PreprocessMacedLegacy p tag data offset communication_settings
    | AS_NEW => PreprocessMacedNew p tag data communication_settings true
  else if mode = MDCM_ENCIPHERED then
    PreprocessEnciphered p tag data offset communication_settings
  else
    (none, -1, tag)

/-- The behaviour claim C2 makes for the Enciphered preprocess arm,
written from the spec's words (append scheme CRC, zero-pad the payload
region to a block multiple, chain-cipher only the region after the
header with the scheme's operation, return the padded length); the
theorem below compares it with the source translation. -/
def PreprocessEncipheredSpec (p : BlockPrims) (tag : MifareTag)
    (data : List Nat) (offset : Nat) : Option (List Nat) × Int × MifareTag :=
  let bs := KeyBlockSize tag.session_key.type
  match tag.authentication_scheme with
  | AS_LEGACY =>
      let plen := PaddedDataLength (data.length - offset + 2) bs
      let payload := data.drop offset ++ MifareCrc16Bytes (data.drop offset)
        ++ List.replicate (plen - (data.length - offset + 2)) 0
      let r := MifareCipherBlocksChainedTag p tag none payload MCD_SEND
        MCO_DECIPHER
      (some (data.take offset ++ r.1), ((offset + plen : Nat) : Int), r.2)
  | AS_NEW =>
      let plen := PaddedDataLength (data.length - offset + 4) bs
      let payload := data.drop offset ++ MifareCrc32Bytes data
        ++ List.replicate (plen - (data.length - offset + 4)) 0
      let r := MifareCipherBlocksChainedTag p tag none payload MCD_SEND
        MCO_ENCIPHER
      (some (data.take offset ++ r.1), ((offset + plen : Nat) : Int), r.2)

/-- C2: in Enciphered mode with the encipher flag set and CRC not
suppressed, `MifareCryptoPreprocessData` behaves exactly as claimed:
CRC16 over the bytes after the header (legacy) or CRC32 over the whole
buffer (new), zero-padding of the payload region to a multiple of the
session key's block size, chained cipher over only the region after the
header (decipher for legacy, encipher for new), header bytes unchanged,
returned length equal to the padded length. -/
theorem MifareCryptoPreprocessData_enciphered (p : BlockPrims)
    (tag : MifareTag) (data : List Nat) (offset : Nat) (cs : Nat)
    (hmode : cs &&& MDCM_MASK = MDCM_ENCIPHERED)
    (henc : cs &&& ENC_COMMAND ≠ 0)
    (hcrc : cs &&& NO_CRC = 0)
    (hoff : offset ≤ data.length) :
    MifareCryptoPreprocessData p tag data offset cs
      = PreprocessEncipheredSpec p tag data offset ∧
    KeyBlockSize tag.session_key.type ∣
      PaddedDataLength (data.length - offset +
        (match tag.authentication_scheme with
         | AS_LEGACY => 2
         | AS_NEW => 4)) (KeyBlockSize tag.session_key.type) := by
  constructor
  · unfold MifareCryptoPreprocessData
    rw [hmode]
    rw [if_neg (by norm_num [MDCM_ENCIPHERED, MDCM_PLAIN]),
      if_neg (by norm_num [MDCM_ENCIPHERED, MDCM_MACED]),
      if_pos rfl]
    unfold PreprocessEnciphered PreprocessEncipheredSpec
    rw [if_neg henc, if_pos hcrc]
    cases hsch : tag.authentication_scheme
    · simp only [hsch, EncipheredDataLength, hcrc]
      have e1 : (data ++ MifareCrc16Bytes (data.drop offset)).length
          = data.length + 2 := by simp [MifareCrc16Bytes]
      have hoff2 : offset ≤ (data ++ MifareCrc16Bytes
          (data.drop offset)).length := by
        rw [e1]; omega
      norm_num [e1]
      have e2 : PaddedDataLength (data.length - offset + 2)
            (KeyBlockSize tag.session_key.type) + offset -
            (data.length + 2)
          = PaddedDataLength (data.length - offset + 2)
            (KeyBlockSize tag.session_key.type) -
            (data.length - offset + 2) := by omega
      rw [List.take_append_of_le_length hoff,
        List.drop_append_of_le_length hoff, e2]
      exact ⟨rfl, Int.add_comm _ _, rfl⟩
    · simp only [hsch, EncipheredDataLength, hcrc]
      have e1 : (data ++ MifareCrc32Bytes data).length
          = data.length + 4 := by simp [MifareCrc32Bytes]
      have hoff2 : offset ≤ (data ++ MifareCrc32Bytes data).length := by
        rw [e1]; omega
      norm_num [e1]
      have e2 : PaddedDataLength (data.length - offset + 4)
            (KeyBlockSize tag.session_key.type) + offset -
            (data.length + 4)
          = PaddedDataLength (data.length - offset + 4)
            (KeyBlockSize tag.session_key.type) -
            (data.length - offset + 4) := by omega
      rw [List.take_append_of_le_length hoff,
        List.drop_append_of_le_length hoff, e2]
      exact ⟨rfl, Int.add_comm _ _, rfl⟩
  · exact PaddedDataLength_dvd _ _
      (KeyBlockSize_dvd_size_mod tag.session_key.type)

/-- A concrete all-zero DES key used to instantiate theorems. -/
def SampleDesKey : MifareKey := ⟨T_DES, List.replicate 16 0, [], [], 0⟩

/-- A concrete legacy-scheme session with a nonzero running ivect. -/
def SampleLegacyTag : MifareTag :=
  ⟨true, 0, 0, SampleDesKey, AS_LEGACY, 255, List.replicate 16 1, []⟩

/-- A concrete new-scheme session with a nonzero running ivect. -/
def SampleNewTag : MifareTag :=
  ⟨true, 0, 0, SampleDesKey, AS_NEW, 255, List.replicate 16 1, []⟩

/-- C2 witness: concrete legacy session, 1-byte header, 2-byte payload. -/
theorem MifareCryptoPreprocessData_enciphered_witness :
    MifareCryptoPreprocessData IdPrims SampleLegacyTag [0x90, 0x01, 0x02]
        1 0x1003
      = PreprocessEncipheredSpec IdPrims SampleLegacyTag [0x90, 0x01, 0x02]
        1 ∧
    KeyBlockSize SampleLegacyTag.session_key.type ∣
      PaddedDataLength ((3 : Nat) - 1 +
        (match SampleLegacyTag.authentication_scheme with
         | AS_LEGACY => 2
         | AS_NEW => 4)) (KeyBlockSize SampleLegacyTag.session_key.type) :=
  MifareCryptoPreprocessData_enciphered IdPrims SampleLegacyTag
    [0x90, 0x01, 0x02] 1 0x1003 (by decide) (by decide) (by decide)
    (by decide)

/-! ## C4: the step-3 transformation of the authentication handshake -/

/-- Step 3 of the authentication handshake (mifare.c lines 755-759): the
token `RndA ‖ RndB'` is pushed through the chained cipher via the tag
with the authentication key, deciphering for the legacy command and
enciphering otherwise. -/
def AuthenticateStep3 (p : BlockPrims) (tag : MifareTag) (key : MifareKey)
    (cmd : Nat) (token : List Nat) : List Nat × MifareTag :=
  MifareCipherBlocksChainedTag p tag (some key) token MCD_SEND
    (if cmd = MF_AUTHENTICATE_LEGACY then MCO_DECIPHER else MCO_ENCIPHER)

/-- C4 counterexample: for a legacy-generation session whose ivect was
left nonzero by step 2, the step-3 transformation does NOT continue
that IV — `MifareCipherBlocksChained` resets the ivect to zero whenever
a tag with the legacy scheme is passed (mifare_crypto.c lines
1428-1434), so the result differs from the claimed carried-IV chained
cipher. -/
theorem AuthenticateStep3_counterexample :
    (AuthenticateStep3 IdPrims SampleLegacyTag SampleDesKey
        MF_AUTHENTICATE_LEGACY (List.replicate 16 0)).1
      ≠ (MifareCipherBlocksChained IdPrims SampleDesKey
          (SampleLegacyTag.ivect.take (KeyBlockSize SampleDesKey.type))
          (List.replicate 16 0) MCD_SEND MCO_DECIPHER).1 := by decide

/-- C4 amended: step 3 transforms the token with the chained cipher,
deciphering for the legacy command and enciphering for the new ones;
the new generation continues the IV left by step 2 in `tag.ivect`,
while the legacy generation restarts from an all-zero IV. -/
theorem AuthenticateStep3_amended (p : BlockPrims) (tag : MifareTag)
    (key : MifareKey) (cmd : Nat) (token : List Nat) :
    (tag.authentication_scheme = AS_NEW →
      AuthenticateStep3 p tag key cmd token
        = ((MifareCipherBlocksChained p key
            (tag.ivect.take (KeyBlockSize key.type)) token MCD_SEND
            (if cmd = MF_AUTHENTICATE_LEGACY then MCO_DECIPHER
             else MCO_ENCIPHER)).1,
           { tag with ivect :=
              (MifareCipherBlocksChained p key
                (tag.ivect.take (KeyBlockSize key.type)) token MCD_SEND
                (if cmd = MF_AUTHENTICATE_LEGACY then MCO_DECIPHER
                 else MCO_ENCIPHER)).2 ++
              tag.ivect.drop (KeyBlockSize key.type) })) ∧
    (tag.authentication_scheme = AS_LEGACY →
      AuthenticateStep3 p tag key cmd token
        = ((MifareCipherBlocksChained p key
            (List.replicate (KeyBlockSize key.type) 0) token MCD_SEND
            (if cmd = MF_AUTHENTICATE_LEGACY then MCO_DECIPHER
             else MCO_ENCIPHER)).1,
           { tag with ivect :=
              (MifareCipherBlocksChained p key
                (List.replicate (KeyBlockSize key.type) 0) token MCD_SEND
                (if cmd = MF_AUTHENTICATE_LEGACY then MCO_DECIPHER
                 else MCO_ENCIPHER)).2 ++
              List.replicate (MAX_CRYPTO_BLOCK_SIZE -
                KeyBlockSize key.type) 0 })) := by
  constructor
  · intro hsch
    simp only [AuthenticateStep3, MifareCipherBlocksChainedTag,
      MifareCipherBlocksChained, hsch, Option.getD]
  · intro hsch
    simp only [AuthenticateStep3, MifareCipherBlocksChainedTag,
      MifareCipherBlocksChained, hsch, Option.getD]
    have htk : (List.replicate MAX_CRYPTO_BLOCK_SIZE 0).take
        (KeyBlockSize key.type) = List.replicate (KeyBlockSize key.type) 0 := by
      rw [List.take_replicate]
      congr 1
      cases key.type <;> simp [KeyBlockSize, MAX_CRYPTO_BLOCK_SIZE]
    have hdk : (List.replicate MAX_CRYPTO_BLOCK_SIZE 0).drop
        (KeyBlockSize key.type)
        = List.replicate (MAX_CRYPTO_BLOCK_SIZE - KeyBlockSize key.type)
            0 := by
      rw [List.drop_replicate]
    rw [htk, hdk]

/-- C4 amended witness: a concrete new-scheme session continuing its
ivect into step 3. -/
theorem AuthenticateStep3_amended_witness :
    AuthenticateStep3 IdPrims SampleNewTag SampleDesKey
        MF_AUTHENTICATE_ISO (List.replicate 16 0)
      = ((MifareCipherBlocksChained IdPrims SampleDesKey
          (SampleNewTag.ivect.take (KeyBlockSize SampleDesKey.type))
          (List.replicate 16 0) MCD_SEND
          (if MF_AUTHENTICATE_ISO = MF_AUTHENTICATE_LEGACY then MCO_DECIPHER
           else MCO_ENCIPHER)).1,
         { SampleNewTag with ivect :=
            (MifareCipherBlocksChained IdPrims SampleDesKey
              (SampleNewTag.ivect.take (KeyBlockSize SampleDesKey.type))
              (List.replicate 16 0) MCD_SEND
              (if MF_AUTHENTICATE_ISO = MF_AUTHENTICATE_LEGACY then
                MCO_DECIPHER else MCO_ENCIPHER)).2 ++
            SampleNewTag.ivect.drop (KeyBlockSize SampleDesKey.type) }) :=
  (AuthenticateStep3_amended IdPrims SampleNewTag SampleDesKey
    MF_AUTHENTICATE_ISO (List.replicate 16 0)).1 rfl

/-! ## Postprocess, Plain/MACed arms (mifare_crypto.c
MifareCryptoPostprocessData lines 1054-1139, 1246-1253) -/

/-- The `AS_LEGACY` arm of the Plain/MACed postprocess
(mifare_crypto.c lines 1082-1106): when MAC verification is requested,
drop the MACing length from nbytes, re-encrypt the zero-padded payload
(all bytes but the trailing status), compare 4 bytes taken 8 before the
end of the encryption with the trailing MAC, and on success strip the
MAC and place the status byte after the payload. -/
def PostprocessPMLegacy (p : BlockPrims) (tag : MifareTag)
    (data : List Nat) (communication_settings : Nat) :
    Option (List Nat) × Int × MifareTag :=
  if communication_settings &&& MAC_VERIFY = 0 then
    (some data, (data.length : Int), tag)
  else
    let n1 := data.length - KeyMacingLength tag.session_key.type
    let edl := EncipheredDataLength tag (n1 - 1) communication_settings
    let edata := data.take (n1 - 1) ++ List.replicate (edl - (n1 - 1)) 0
    let r := MifareCipherBlocksChainedTag p tag none edata MCD_SEND
      MCO_ENCIPHER
    if (data.drop (n1 - 1)).take MAC_LENGTH
        ≠ (r.1.drop (edl - 8)).take MAC_LENGTH then
      (none, -1, { r.2 with last_pcd_error := CRYPTO_ERROR })
    else
      let n2 := n1 - MAC_LENGTH
      (some (data.set (n2 - 1) 0x00), ((n2 : Nat) : Int), r.2)

/-- The `AS_NEW` arm of the Plain/MACed postprocess (mifare_crypto.c
lines 1108-1136): nothing happens unless CMAC_COMMAND is set; with
CMAC_VERIFY also set, a response shorter than status + 8 CMAC bytes
breaks out immediately (no CMAC computed, no error recorded); otherwise
the status byte is temporarily swapped before the trailing CMAC, the
CMAC is recomputed over payload+status, and (when verifying) compared
with the received CMAC. -/
def PostprocessPMNew (p : BlockPrims) (tag : MifareTag)
    (data : List Nat) (communication_settings : Nat) :
    Option (List Nat) × Int × MifareTag :=
  if communication_settings &&& CMAC_COMMAND = 0 then
    (some data, (data.length : Int), tag)
  else
    let n := data.length
    if communication_settings &&& CMAC_VERIFY ≠ 0 ∧ n < 1 + CMAC_LENGTH then
      (some data, (n : Int), tag)
    else
      let verify := communication_settings &&& CMAC_VERIFY ≠ 0
      let first_cmac_byte := data.getD (n - 1 - CMAC_LENGTH) 0
      let data1 :=
        if verify then data.set (n - 1 - CMAC_LENGTH) (data.getD (n - 1) 0)
        else data
      let num := if verify then CMAC_LENGTH else 0
      let kbs := KeyBlockSize tag.session_key.type
      let r := Cmac p tag.session_key (tag.ivect.take kbs)
        (data1.take (n - num))
      let tag2 := { tag with
        ivect := r.2 ++ tag.ivect.drop kbs
        cmac := r.1 }
      if verify then
        let data2 := data1.set (n - 1 - CMAC_LENGTH) first_cmac_byte
        if r.1.take CMAC_LENGTH
            ≠ (data2.drop (n - 1 - CMAC_LENGTH)).take CMAC_LENGTH then
          (none, -1, { tag2 with last_pcd_error := CRYPTO_ERROR })
        else
          (some (data2.set (n - CMAC_LENGTH - 1) 0x00),
           ((n - CMAC_LENGTH : Nat) : Int), tag2)
      else
        (some data1, (n : Int), tag2)

/-- `MifareCryptoPostprocessData` (mifare_crypto.c lines 1054-1139 and
1246-1253) for the `MDCM_PLAIN` and `MDCM_MACED` modes, including the
1-byte status short-circuit and the default (unknown settings) arm.
The `MDCM_ENCIPHERED` arm (lines 1141-1244) is outside the scope of
this development and is mapped to a reserved marker value that no
theorem relies on. -/
def MifareCryptoPostprocessDataPM (p : BlockPrims) (tag : MifareTag)
    (data : List Nat) (communication_settings : Nat) :
    Option (List Nat) × Int × MifareTag :=
  if data.length = 1 then (some data, 1, tag)
  else
    let mode := communication_settings &&& MDCM_MASK
    if mode = MDCM_PLAIN then
      match tag.authentication_scheme with
      | AS_LEGACY => (some data, (data.length : Int), tag)
      | AS_NEW => PostprocessPMNew p tag data communication_settings
    else if mode = MDCM_MACED then
      match tag.authentication_scheme with
      | AS_LEGACY => PostprocessPMLegacy p tag data communication_settings
      | AS_NEW => PostprocessPMNew p tag data communication_settings
    else if mode = MDCM_ENCIPHERED then
      (none, -2, tag)
    else
      (none, -1, tag)

/-- C10: in a new-generation session, Plain or MACed mode with both
CMAC_COMMAND and CMAC_VERIFY set, every response of 2 to 8 bytes (too
short for status + 8 CMAC bytes) is returned unchanged as a success:
no CMAC is computed or compared, the error field and ivect are
untouched, nbytes is unchanged and the result is non-NULL. -/
theorem MifareCryptoPostprocessData_short_cmac_accepted (p : BlockPrims)
    (tag : MifareTag) (data : List Nat) (communication_settings : Nat)
    (hsch : tag.authentication_scheme = AS_NEW)
    (hmode : communication_settings &&& MDCM_MASK = MDCM_PLAIN ∨
      communication_settings &&& MDCM_MASK = MDCM_MACED)
    (hcmd : communication_settings &&& CMAC_COMMAND ≠ 0)
    (hver : communication_settings &&& CMAC_VERIFY ≠ 0)
    (hlo : 1 < data.length) (hhi : data.length < 9) :
    MifareCryptoPostprocessDataPM p tag data communication_settings
      = (some data, (data.length : Int), tag) := by
  unfold MifareCryptoPostprocessDataPM
  rw [if_neg (by omega)]
  have hnew : PostprocessPMNew p tag data communication_settings
      = (some data, (data.length : Int), tag) := by
    unfold PostprocessPMNew
    rw [if_neg hcmd, if_pos ⟨hver, by
      show data.length < 1 + CMAC_LENGTH
      simp [CMAC_LENGTH]
      omega⟩]
  rcases hmode with hm | hm
  · rw [hm]
    rw [if_pos rfl, hsch]
    exact hnew
  · rw [hm]
    rw [if_neg (by norm_num [MDCM_MACED, MDCM_PLAIN]), if_pos rfl, hsch]
    exact hnew

/-- C10 witness: a 5-byte response in MACed mode with both CMAC flags
set is accepted unverified. -/
theorem MifareCryptoPostprocessData_short_cmac_accepted_witness :
    MifareCryptoPostprocessDataPM IdPrims SampleNewTag
        [0x01, 0x02, 0x03, 0x04, 0x00] 0x31
      = (some [0x01, 0x02, 0x03, 0x04, 0x00], ((5 : Nat) : Int),
         SampleNewTag) :=
  MifareCryptoPostprocessData_short_cmac_accepted IdPrims SampleNewTag
    [0x01, 0x02, 0x03, 0x04, 0x00] 0x31 rfl (Or.inr (by decide))
    (by decide) (by decide) (by decide) (by decide)

/-! ## Authentication protocol (mifare.c Authenticate) -/

/-- `MifareSessionKeyNew` (mifare_key.c lines 312-350): interleave
4-byte slices of the two nonces per the authentication key's algorithm
and build a key of the same algorithm. -/
def MifareSessionKeyNew (rnda rndb : List Nat)
    (authentication_key : MifareKey) : MifareKey :=
  match authentication_key.type with
  | T_DES =>
      MifareDesKeyNewWithVersion (rnda.take 4 ++ rndb.take 4)
  | T_3DES =>
      Mifare3DesKeyNewWithVersion
        (rnda.take 4 ++ rndb.take 4 ++
         (rnda.drop 4).take 4 ++ (rndb.drop 4).take 4)
  | T_3K3DES =>
      Mifare3k3DesKeyNew
        (rnda.take 4 ++ rndb.take 4 ++
         (rnda.drop 6).take 4 ++ (rndb.drop 6).take 4 ++
         (rnda.drop 12).take 4 ++ (rndb.drop 12).take 4)
  | T_AES =>
      MifareAesKeyNew
        (rnda.take 4 ++ rndb.take 4 ++
         (rnda.drop 12).take 4 ++ (rndb.drop 12).take 4)

/-- The state changes `Authenticate` applies before the exchange
(mifare.c lines 732-738): zero the ivect, reset the authenticated key
number, and record the authentication scheme selected by the command
byte. -/
def AuthenticateTagStart (tag : MifareTag) (cmd : Nat) : MifareTag :=
  { tag with
    ivect := List.replicate MAX_CRYPTO_BLOCK_SIZE 0
    authenticated_key_no := NOT_YET_AUTHENTICATED
    authentication_scheme :=
      if cmd = MF_AUTHENTICATE_LEGACY then AS_LEGACY else AS_NEW }

/-- Step 2 of the handshake (mifare.c lines 743-749): decipher the
card's enciphered challenge `eK(RndB)` with the candidate key through
the tag, returning `RndB` and the updated tag. -/
def AuthenticateRndBStep (p : BlockPrims) (tag : MifareTag) (cmd : Nat)
    (key : MifareKey) (eRndB : List Nat) : List Nat × MifareTag :=
  MifareCipherBlocksChainedTag p (AuthenticateTagStart tag cmd) (some key)
    eRndB MCD_RECEIVE MCO_DECIPHER

/-- Steps 2-5 of the handshake up to the card's final answer (mifare.c
lines 743-768): decipher `RndB`, send the transformed token
`RndA ‖ rol(RndB)` (step 3), then decipher the card's enciphered
rotated `eK(RndA')`, returning `RndA'` and the tag as left by the three
chained calls. -/
def AuthenticatePiccRndA (p : BlockPrims) (tag : MifareTag) (cmd : Nat)
    (key : MifareKey) (rndA eRndB eRndA : List Nat) :
    List Nat × MifareTag :=
  let key_length := eRndB.length
  let r1 := AuthenticateRndBStep p tag cmd key eRndB
  let token := rndA.take key_length ++ Rol (r1.1.take key_length)
  let r2 := AuthenticateStep3 p r1.2 key cmd token
  MifareCipherBlocksChainedTag p r2.2 (some key) (eRndA.take key_length)
    MCD_RECEIVE MCO_DECIPHER

/-- `Authenticate` (mifare.c lines 714-790).  The card's two enciphered
responses and the 16 random bytes drawn for `RndA` are inputs (the
transport exchange and `RAND_bytes` are the external collaborators).
Returns the C status (SUCCESS = 0, FAIL = -1) and the updated tag. -/
def Authenticate (p : BlockPrims) (tag : MifareTag) (cmd key_no : Nat)
    (key : MifareKey) (rndA eRndB eRndA : List Nat) : Int × MifareTag :=
  if tag.active = false then (-1, tag)
  else
    let key_length := eRndB.length
    let r1 := AuthenticateRndBStep p tag cmd key eRndB
    let r3 := AuthenticatePiccRndA p tag cmd key rndA eRndB eRndA
    let PCD_r_RndA := Rol (rndA.take key_length)
    if PCD_r_RndA ≠ r3.1 then (-1, r3.2)
    else
      let session := MifareSessionKeyNew rndA r1.1 key
      let tag5 := { r3.2 with
        authenticated_key_no := key_no
        session_key := session
        ivect := List.replicate MAX_CRYPTO_BLOCK_SIZE 0 }
      match tag5.authentication_scheme with
      | AS_LEGACY => (0, tag5)
      | AS_NEW => (0, { tag5 with
          session_key := CmacGenerateSubkeys p session })

/-- C3: whenever the deciphered rotated `RndA'` from the card differs
from the engine's own one-byte-left rotation of its `RndA`,
`Authenticate` returns FAIL, the session's authenticated key number
stays `NOT_YET_AUTHENTICATED`, and the session key (with its CMAC
subkeys) is exactly the one from before the call — nothing was
installed or derived. -/
theorem Authenticate_mismatch_fails (p : BlockPrims) (tag : MifareTag)
    (cmd key_no : Nat) (key : MifareKey) (rndA eRndB eRndA : List Nat)
    (hactive : tag.active = true)
    (hmm : Rol (rndA.take eRndB.length)
      ≠ (AuthenticatePiccRndA p tag cmd key rndA eRndB eRndA).1) :
    Authenticate p tag cmd key_no key rndA eRndB eRndA
      = (-1, (AuthenticatePiccRndA p tag cmd key rndA eRndB eRndA).2) ∧
    (AuthenticatePiccRndA p tag cmd key rndA eRndB
      eRndA).2.authenticated_key_no = NOT_YET_AUTHENTICATED ∧
    (AuthenticatePiccRndA p tag cmd key rndA eRndB eRndA).2.session_key
      = tag.session_key := by
  refine ⟨?_, ?_, ?_⟩
  · unfold Authenticate
    rw [if_neg (by rw [hactive]; simp), if_pos hmm]
  · simp [AuthenticatePiccRndA, AuthenticateStep3, AuthenticateRndBStep,
      AuthenticateTagStart, MifareCipherBlocksChainedTag]
  · simp [AuthenticatePiccRndA, AuthenticateStep3, AuthenticateRndBStep,
      AuthenticateTagStart, MifareCipherBlocksChainedTag]

/-- C3 witness: a concrete run in which the card's answer deciphers to
the wrong rotation. -/
theorem Authenticate_mismatch_fails_witness :
    Authenticate IdPrims SampleLegacyTag MF_AUTHENTICATE_LEGACY 3
        SampleDesKey (List.replicate 16 5) (List.replicate 8 9)
        (List.replicate 8 0)
      = (-1, (AuthenticatePiccRndA IdPrims SampleLegacyTag
          MF_AUTHENTICATE_LEGACY SampleDesKey (List.replicate 16 5)
          (List.replicate 8 9) (List.replicate 8 0)).2) ∧
    (AuthenticatePiccRndA IdPrims SampleLegacyTag MF_AUTHENTICATE_LEGACY
      SampleDesKey (List.replicate 16 5) (List.replicate 8 9)
      (List.replicate 8 0)).2.authenticated_key_no
        = NOT_YET_AUTHENTICATED ∧
    (AuthenticatePiccRndA IdPrims SampleLegacyTag MF_AUTHENTICATE_LEGACY
      SampleDesKey (List.replicate 16 5) (List.replicate 8 9)
      (List.replicate 8 0)).2.session_key
        = SampleLegacyTag.session_key :=
  Authenticate_mismatch_fails IdPrims SampleLegacyTag
    MF_AUTHENTICATE_LEGACY 3 SampleDesKey (List.replicate 16 5)
    (List.replicate 8 9) (List.replicate 8 0) (by decide) (by decide)

/-! ## Transport framing (mifare.c MifarePutBuf, MifareCommTCL) -/

/-- The bytes `MifarePutBuf` (mifare.c lines 310-327) emits on the
serial link in one call: the buffer followed by the running-XOR
checksum of all its bytes (an 8-bit accumulator). -/
def MifarePutBufBytes (buffer : List Nat) : List Nat :=
  buffer ++ [buffer.foldl (fun c b => (c ^^^ b) &&& 0xFF) 0]

/-- `MifareCommTCL` (mifare.c lines 468-498), modelled as the list of
frames its one invocation transmits on the serial link.  The SL032
header `0xBA, size+2, 0x21` is built first; the loop that copies the
payload into the command buffer contains the `MifarePutBuf` /
`MifareGetBuf` pair, so every iteration of the copy transmits the
partially-filled frame.  `garbage` models the uninitialized stack
contents of `comm` beyond the 3-byte header. -/
def MifareCommTCLFrames (garbage buffer : List Nat) : List (List Nat) :=
  let size := buffer.length
  let comm0 := [0xBA, (size + 2) &&& 0xFF, 0x21] ++ garbage.take size
  ((List.range size).foldl
    (fun (st : List Nat × List (List Nat)) i =>
      let comm := st.1.set (i + 3) (buffer.getD i 0)
      (comm, st.2 ++ [MifarePutBufBytes comm]))
    (comm0, [])).2

/-- C9 evaluation: a single `MifareCommTCL` call with a 2-byte payload
transmits TWO frames, not one — the transmit/receive pair sits inside
the payload-copy loop — and the first frame still contains an
uninitialized byte (0xDD here) where the second payload byte belongs.
This contradicts the function's own description (one assembled frame,
then one transmission) and the claim. -/
theorem MifareCommTCL_transmits_per_byte :
    (MifareCommTCLFrames [0xCC, 0xDD] [0x00, 0x00]).length = 2 ∧
    MifareCommTCLFrames [0xCC, 0xDD] [0x00, 0x00]
      = [MifarePutBufBytes [0xBA, 4, 0x21, 0x00, 0xDD],
         MifarePutBufBytes [0xBA, 4, 0x21, 0x00, 0x00]] := by
  constructor
  · decide
  · decide
